import Mathlib

/-!
Verification development for `modo_promotions.py`, a Selenium-based scraper
for the MODO promotions site.  The browser/DOM is modelled as an abstract
query table; the scraper's control flow (try/except, fallback chains, the
scroll-and-collect loop, the sequential batch with guaranteed session
cleanup) is embedded as executable Lean functions over that model.
-/

namespace ModoPromos

/-! ## String utilities modelling Python built-ins -/

/-- Model of Python whitespace membership used by `str.strip()`. -/
def isWsChar (c : Char) : Bool := c.isWhitespace

/-- Strip leading and trailing whitespace characters from a character list:
the list-level model of Python `str.strip()`. -/
def stripList (l : List Char) : List Char :=
  ((l.dropWhile isWsChar).reverse.dropWhile isWsChar).reverse

/-- Model of Python `str.strip()` (no arguments): remove leading and
trailing whitespace. -/
def pyStrip (s : String) : String := ⟨stripList s.data⟩

/-- Model of Python `str.startswith(p)`. -/
def swStr (s p : String) : Bool := p.data.isPrefixOf s.data

/-- Model of Python `str.lower()` (ASCII case folding suffices here). -/
def lowerStr (s : String) : String := ⟨s.data.map Char.toLower⟩

/-- Model of Python's `<` on strings: lexicographic on code points. -/
def pyLtChars : List Char → List Char → Bool
  | _, [] => false
  | [], _ :: _ => true
  | a :: as, b :: bs => if a < b then true else if a = b then pyLtChars as bs else false

/-- `a < b` for strings, as Python's `sorted` compares them. -/
def pyLt (a b : String) : Bool := pyLtChars a.data b.data

/-- Strict lexicographic sortedness, the shape of `sorted(set_of_str)`. -/
def StrictSorted (l : List String) : Prop :=
  l.Pairwise (fun a b => pyLt a b = true)

/-- Occurrence of `n` as a contiguous sublist of `h`. -/
def infixCheck (n : List Char) : List Char → Bool
  | [] => n.isEmpty
  | c :: t => n.isPrefixOf (c :: t) || infixCheck n t

/-- Model of the Python `in` operator on strings (substring test). -/
def strContains (s sub : String) : Bool := infixCheck sub.data s.data

/-- A string that is non-empty and consists only of whitespace characters. -/
def WsOnly (s : String) : Prop := s ≠ "" ∧ ∀ c ∈ s.data, isWsChar c

/-- A string unchanged by stripping and not whitespace-only: the shape of
every value the scraper stores after calling `.strip()`. -/
def GoodStr (s : String) : Prop := pyStrip s = s ∧ ¬ WsOnly s

theorem dropWhile_head_false {p : Char → Bool} {l : List Char} {c : Char}
    {t : List Char} (h : l.dropWhile p = c :: t) : p c = false := by
  induction l with
  | nil => simp [List.dropWhile] at h
  | cons a l ih =>
    rw [List.dropWhile_cons] at h
    by_cases hp : p a
    · rw [if_pos hp] at h; exact ih h
    · rw [if_neg hp] at h
      cases h
      simpa using hp

theorem dropWhile_of_head_false {p : Char → Bool} {c : Char} {t : List Char}
    (h : p c = false) : (c :: t).dropWhile p = c :: t := by
  simp [List.dropWhile_cons, h]

theorem dropWhile_getLast? {p : Char → Bool} {l : List Char}
    (h : l.dropWhile p ≠ []) : (l.dropWhile p).getLast? = l.getLast? := by
  induction l with
  | nil => simp [List.dropWhile] at h
  | cons a l ih =>
    rw [List.dropWhile_cons] at h ⊢
    by_cases hp : p a
    · rw [if_pos hp] at h ⊢
      rw [ih h]
      have hl : l ≠ [] := by
        intro he; rw [he] at h; simp [List.dropWhile] at h
      cases l with
      | nil => exact absurd rfl hl
      | cons b t => rw [List.getLast?_cons_cons]
    · rw [if_neg hp]

/-- The head of the stripped list is not whitespace. -/
theorem stripList_head_not_ws {l : List Char} {c : Char} {t : List Char}
    (h : stripList l = c :: t) : isWsChar c = false := by
  unfold stripList at h
  have hbne : (l.dropWhile isWsChar).reverse.dropWhile isWsChar ≠ [] := by
    intro he; rw [he] at h; simp at h
  have h4 : ((l.dropWhile isWsChar).reverse.dropWhile isWsChar).reverse.head? = some c := by
    rw [h]; rfl
  rw [List.head?_reverse] at h4
  rw [dropWhile_getLast? hbne] at h4
  rw [List.getLast?_reverse] at h4
  cases hc : l.dropWhile isWsChar with
  | nil => rw [hc] at h4; simp at h4
  | cons x xs =>
    rw [hc] at h4
    simp at h4
    subst h4
    exact dropWhile_head_false hc

/-- The last element of the stripped list is not whitespace. -/
theorem stripList_getLast_not_ws (l : List Char) {d : Char}
    (hd : (stripList l).getLast? = some d) : isWsChar d = false := by
  unfold stripList at hd
  rw [List.getLast?_reverse] at hd
  cases hc : (l.dropWhile isWsChar).reverse.dropWhile isWsChar with
  | nil => rw [hc] at hd; simp at hd
  | cons x xs =>
    rw [hc] at hd
    simp at hd
    subst hd
    exact dropWhile_head_false hc

theorem stripList_def (l : List Char) :
    stripList l = ((l.dropWhile isWsChar).reverse.dropWhile isWsChar).reverse := rfl

/-- Stripping is idempotent. -/
theorem stripList_idem (l : List Char) : stripList (stripList l) = stripList l := by
  cases hc : stripList l with
  | nil => rfl
  | cons c t =>
    have h1 : (c :: t).dropWhile isWsChar = c :: t :=
      dropWhile_of_head_false (stripList_head_not_ws hc)
    have h2 : (c :: t).reverse.dropWhile isWsChar = (c :: t).reverse := by
      cases hr : (c :: t).reverse with
      | nil => rfl
      | cons d s =>
        apply dropWhile_of_head_false
        apply stripList_getLast_not_ws l
        rw [hc, ← List.head?_reverse, hr]
        rfl
    rw [stripList_def (c :: t), h1, h2, List.reverse_reverse]

theorem pyStrip_idem (s : String) : pyStrip (pyStrip s) = pyStrip s := by
  unfold pyStrip
  exact congrArg String.mk (stripList_idem s.data)

/-- A stripped string is never whitespace-only. -/
theorem pyStrip_not_wsOnly (s : String) : ¬ WsOnly (pyStrip s) := by
  rintro ⟨hne, hall⟩
  cases hc : stripList s.data with
  | nil =>
    apply hne
    show (⟨stripList s.data⟩ : String) = ""
    rw [hc]
  | cons c t =>
    have hhead : isWsChar c = false := stripList_head_not_ws hc
    have hc' : c ∈ (pyStrip s).data := by
      show c ∈ stripList s.data
      rw [hc]; exact List.mem_cons_self c t
    have hwc := hall c hc'
    rw [hhead] at hwc
    exact absurd hwc (by simp)

/-- Any value of the form `pyStrip raw` is a good stored string. -/
theorem goodStr_of_strip (raw : String) : GoodStr (pyStrip raw) :=
  ⟨pyStrip_idem raw, pyStrip_not_wsOnly raw⟩

theorem goodStr_empty : GoodStr "" := by
  constructor
  · rfl
  · rintro ⟨hne, _⟩; exact hne rfl

/-! ## Order facts about `pyLt` -/

theorem pyLtChars_irrefl (l : List Char) : pyLtChars l l = false := by
  induction l with
  | nil => rfl
  | cons a as ih => simp [pyLtChars, lt_irrefl, ih]

theorem pyLtChars_trans {l1 l2 l3 : List Char} (h1 : pyLtChars l1 l2 = true)
    (h2 : pyLtChars l2 l3 = true) : pyLtChars l1 l3 = true := by
  induction l1 generalizing l2 l3 with
  | nil =>
    cases l3 with
    | nil => cases l2 <;> simp [pyLtChars] at h1 h2
    | cons c cs => simp [pyLtChars]
  | cons a as ih =>
    cases l2 with
    | nil => simp [pyLtChars] at h1
    | cons b bs =>
      cases l3 with
      | nil => simp [pyLtChars] at h2
      | cons c cs =>
        rw [pyLtChars] at h1 h2 ⊢
        by_cases hab : a < b
        · by_cases hbc : b < c
          · simp [lt_trans hab hbc]
          · by_cases hbc2 : b = c
            · subst hbc2; simp [hab]
            · rw [if_neg hbc, if_neg hbc2] at h2; simp at h2
        · by_cases hab2 : a = b
          · subst hab2
            rw [if_neg hab, if_pos rfl] at h1
            by_cases hbc : a < c
            · simp [hbc]
            · by_cases hbc2 : a = c
              · subst hbc2
                rw [if_neg hbc, if_pos rfl] at h2
                simp [hbc, ih h1 h2]
              · rw [if_neg hbc, if_neg hbc2] at h2; simp at h2
          · rw [if_neg hab, if_neg hab2] at h1; simp at h1

theorem pyLtChars_connex {l1 l2 : List Char} (h : pyLtChars l1 l2 = false)
    (hne : l1 ≠ l2) : pyLtChars l2 l1 = true := by
  induction l1 generalizing l2 with
  | nil =>
    cases l2 with
    | nil => exact absurd rfl hne
    | cons b bs => simp [pyLtChars] at h
  | cons a as ih =>
    cases l2 with
    | nil => simp [pyLtChars]
    | cons b bs =>
      rw [pyLtChars] at h
      rw [pyLtChars]
      by_cases hab : a < b
      · rw [if_pos hab] at h; simp at h
      · by_cases hab2 : a = b
        · subst hab2
          rw [if_neg hab, if_pos rfl] at h
          have hne2 : as ≠ bs := fun he => hne (by rw [he])
          simp [lt_irrefl, ih h hne2]
        · have hba : b < a := lt_of_le_of_ne (le_of_not_lt hab) (fun he => hab2 he.symm)
          simp [hba]

theorem pyLt_ne {a b : String} (h : pyLt a b = true) : a ≠ b := by
  intro he
  subst he
  rw [pyLt, pyLtChars_irrefl] at h
  exact absurd h (by simp)

theorem pyLt_trans {a b c : String} (h1 : pyLt a b = true) (h2 : pyLt b c = true) :
    pyLt a c = true := pyLtChars_trans h1 h2

theorem pyLt_connex {a b : String} (h : pyLt a b = false) (hne : a ≠ b) :
    pyLt b a = true := by
  apply pyLtChars_connex h
  intro he
  apply hne
  cases a
  cases b
  exact congrArg String.mk he

/-! ## Model of `urllib.parse.urljoin` for the fixed base URL

`fetch_promo_links` calls `urljoin(BASE, href)` with
`BASE = "https://www.modo.com.ar"` (scheme `https`, empty path).  The model
follows CPython's algorithm for that base: a reference with a scheme other
than `https` (or with a netloc) is returned unchanged; otherwise the
reference is resolved against the base origin.  Dot-segment normalization
(`.`/`..`) is not modelled; no claim depends on it. -/

/-- Characters allowed in a URL scheme (CPython `scheme_chars`). -/
def schemeChar (c : Char) : Bool :=
  c.isAlpha || c.isDigit || c = '+' || c = '-' || c = '.'

/-- Split a leading `scheme:` off a character list, as CPython `urlsplit`
does: the prefix before the first `:` must be non-empty and consist of
scheme characters. -/
def schemeSplitAux : List Char → List Char → Option (List Char × List Char)
  | _, [] => none
  | acc, c :: cs =>
    if c = ':' then (if acc.isEmpty then none else some (acc.reverse, cs))
    else if schemeChar c then schemeSplitAux (c :: acc) cs
    else none

/-- Split a URL into its scheme and the remainder after the colon. -/
def schemeSplit (s : String) : Option (String × String) :=
  (schemeSplitAux [] s.data).map (fun p => (⟨p.1⟩, ⟨p.2⟩))

/-- The listing site's base URL, as in `fetch_promo_links`. -/
def BASE : String := "https://www.modo.com.ar"

/-- Resolve a scheme-less reference against `BASE` (whose path is empty). -/
def joinPath (r : String) : String :=
  if swStr r "//" then "https:" ++ r
  else if r = "" then BASE
  else if swStr r "/" then BASE ++ r
  else if swStr r "?" || swStr r "#" then BASE ++ r
  else BASE ++ "/" ++ r

/-- Model of `urljoin(BASE, href)`. -/
def urljoinModo (href : String) : String :=
  match schemeSplit href with
  | some (sch, rest) =>
    if lowerStr sch = "https" then
      (if swStr rest "//" then href else joinPath rest)
    else href
  | none => joinPath href

/-- A URL is absolute when it carries a scheme. -/
def isAbsoluteUrl (u : String) : Bool := (schemeSplit u).isSome

/-- The origin (`scheme://host`) of an absolute URL with a netloc, or `""`. -/
def originOf (u : String) : String :=
  match schemeSplit u with
  | some (sch, rest) =>
    if swStr rest "//" then
      sch ++ "://" ++ ⟨(rest.data.drop 2).takeWhile (fun c => c ≠ '/' && c ≠ '?' && c ≠ '#')⟩
    else ""
  | none => ""

theorem schemeSplit_https_append (t : String) :
    schemeSplit ("https:" ++ t) = some ("https", t) := by
  have hd : ("https:" ++ t).data = 'h' :: 't' :: 't' :: 'p' :: 's' :: ':' :: t.data := by
    rw [String.data_append]; rfl
  unfold schemeSplit
  rw [hd]
  rfl

theorem isAbsolute_joinPath (r : String) : isAbsoluteUrl (joinPath r) = true := by
  have habs : ∀ t : String, isAbsoluteUrl ("https:" ++ t) = true := by
    intro t
    unfold isAbsoluteUrl
    rw [schemeSplit_https_append]
    rfl
  have hbase : ∀ t : String, BASE ++ t = "https:" ++ ("//www.modo.com.ar" ++ t) := by
    intro t
    show ("https:" ++ "//www.modo.com.ar") ++ t = _
    rw [String.append_assoc]
  unfold joinPath
  split
  · exact habs _
  · split
    · exact habs "//www.modo.com.ar"
    · split
      · rw [hbase]; exact habs _
      · split
        · rw [hbase]; exact habs _
        · rw [String.append_assoc, hbase]; exact habs _

/-- Every URL produced by the collector's `urljoin` call is absolute. -/
theorem isAbsolute_urljoinModo (href : String) :
    isAbsoluteUrl (urljoinModo href) = true := by
  unfold urljoinModo
  cases hs : schemeSplit href with
  | none => exact isAbsolute_joinPath href
  | some p =>
    obtain ⟨sch, rest⟩ := p
    dsimp only
    split
    · split
      · unfold isAbsoluteUrl
        rw [hs]
        rfl
      · exact isAbsolute_joinPath rest
    · unfold isAbsoluteUrl
      rw [hs]
      rfl

/-! ## Sorted duplicate-free insertion

Python's `seen` is a `set` of strings returned as `sorted(seen)`.  The model
keeps the set as a strictly sorted list: inserting an element preserves
strict sortedness, and the final `sorted(seen)` is the list itself. -/

/-- Insert a string into a strictly sorted list, skipping duplicates: the
model of `set.add` followed by `sorted` at the end. -/
def sortedInsert (x : String) : List String → List String
  | [] => [x]
  | y :: ys =>
    if pyLt x y then x :: y :: ys
    else if x = y then y :: ys
    else y :: sortedInsert x ys

theorem mem_sortedInsert {u x : String} {l : List String}
    (h : u ∈ sortedInsert x l) : u = x ∨ u ∈ l := by
  induction l with
  | nil => simp [sortedInsert] at h; exact Or.inl h
  | cons y ys ih =>
    rw [sortedInsert] at h
    split at h
    · rcases List.mem_cons.mp h with h1 | h1
      · exact Or.inl h1
      · exact Or.inr h1
    · split at h
      · exact Or.inr h
      · rcases List.mem_cons.mp h with h1 | h1
        · exact Or.inr (List.mem_cons.mpr (Or.inl h1))
        · rcases ih h1 with h2 | h2
          · exact Or.inl h2
          · exact Or.inr (List.mem_cons.mpr (Or.inr h2))

theorem sorted_sortedInsert (x : String) {l : List String}
    (h : StrictSorted l) : StrictSorted (sortedInsert x l) := by
  induction l with
  | nil => simp [sortedInsert, StrictSorted]
  | cons y ys ih =>
    rw [StrictSorted, List.pairwise_cons] at h
    obtain ⟨hy, hys⟩ := h
    rw [sortedInsert]
    split
    · rename_i hlt
      rw [StrictSorted, List.pairwise_cons]
      refine ⟨?_, List.pairwise_cons.mpr ⟨hy, hys⟩⟩
      intro b hb
      rcases List.mem_cons.mp hb with h1 | h1
      · exact h1 ▸ hlt
      · exact pyLt_trans hlt (hy b h1)
    · split
      · exact List.pairwise_cons.mpr ⟨hy, hys⟩
      · rename_i hnlt hne
        rw [StrictSorted, List.pairwise_cons]
        refine ⟨?_, ih hys⟩
        intro b hb
        rcases mem_sortedInsert hb with h1 | h1
        · subst h1
          exact pyLt_connex (by simpa using hnlt) hne
        · exact hy b h1

/-! ## The Link Collector (`fetch_promo_links`)

The browser is modelled as a finite trace of scroll iterations.  Each
iteration records what `execute_script` would report: the vertical offset
before and after the scroll, the landmark heading's bounding-rectangle top,
the viewport height, and the `href` attribute of every element matching the
card selector at that moment (with `""` standing for Selenium's `None` on a
missing attribute: the code only tests the value for truthiness). -/

structure ScrollStep where
  yBefore : Int
  yAfter : Int
  helperTop : Int
  innerHeight : Int
  cards : List String
deriving DecidableEq

/-- The environment of one collector run: whether the landmark heading
`¿Necesitás ayuda?` is present, and the scroll-iteration trace. -/
structure FetchEnv where
  helperFound : Bool
  steps : List ScrollStep
deriving DecidableEq

/-- `seen.add(urljoin(BASE, href))` guarded by `if href:`. -/
def addCard (seen : List String) (href : String) : List String :=
  if href ≠ "" then sortedInsert (urljoinModo href) seen else seen

/-- The `while stalls < max_stalls` scroll-and-collect loop of
`fetch_promo_links`, lines 62-83 of the source.  State: the `seen` set (as
a strictly sorted list), the stall counter, and `last_y`. -/
def collectLoop (maxStalls : Int) :
    List ScrollStep → List String → Int → Int → List String
  | [], seen, _, _ => seen
  | s :: rest, seen, stalls, lastY =>
    if stalls < maxStalls then
      if s.yAfter = s.yBefore ∧ s.yBefore = lastY then seen
      else
        if 0 < s.helperTop ∧ s.helperTop < s.innerHeight - 100 then
          let seen2 := s.cards.foldl addCard seen
          let stalls2 : Int := if (seen2.length : Int) = s.yAfter then stalls + 1 else 0
          collectLoop maxStalls rest seen2 stalls2 s.yAfter
        else collectLoop maxStalls rest seen stalls s.yAfter
    else seen

inductive ScrapeErr where
  | noSuch
  | timeout
  | staleElem
deriving DecidableEq

/-- `fetch_promo_links`: navigate, locate the landmark (failure aborts the
run), run the scroll loop, return `sorted(seen)`. -/
def fetch_promo_links (maxStalls : Int) (env : FetchEnv) :
    Except ScrapeErr (List String) :=
  if env.helperFound then .ok (collectLoop maxStalls env.steps [] 0 (-1))
  else .error .noSuch

theorem collectLoop_inv (maxStalls : Int)
    (P : String → Prop) (hP : ∀ href, href ≠ "" → P (urljoinModo href))
    (steps : List ScrollStep) :
    ∀ seen stalls lastY,
      StrictSorted seen → (∀ u ∈ seen, P u) →
      StrictSorted (collectLoop maxStalls steps seen stalls lastY) ∧
      ∀ u ∈ collectLoop maxStalls steps seen stalls lastY, P u := by
  have hfold : ∀ (cards : List String) (seen : List String),
      StrictSorted seen → (∀ u ∈ seen, P u) →
      StrictSorted (cards.foldl addCard seen) ∧
      ∀ u ∈ cards.foldl addCard seen, P u := by
    intro cards
    induction cards with
    | nil => intro seen h1 h2; exact ⟨h1, h2⟩
    | cons c cs ih =>
      intro seen h1 h2
      rw [List.foldl_cons]
      apply ih
      · unfold addCard
        split
        · exact sorted_sortedInsert _ h1
        · exact h1
      · intro u hu
        unfold addCard at hu
        split at hu
        · rcases mem_sortedInsert hu with h3 | h3
          · rename_i hc; exact h3 ▸ hP c hc
          · exact h2 u h3
        · exact h2 u hu
  induction steps with
  | nil => intro seen stalls lastY h1 h2; exact ⟨h1, h2⟩
  | cons s rest ih =>
    intro seen stalls lastY h1 h2
    rw [collectLoop]
    split
    · split
      · exact ⟨h1, h2⟩
      · split
        · obtain ⟨h3, h4⟩ := hfold s.cards seen h1 h2
          exact ih _ _ _ h3 h4
        · exact ih _ _ _ h1 h2
    · exact ⟨h1, h2⟩

/-! ## DOM model for the Page Extractor

An element carries a staleness flag (reading a stale element raises
`StaleElementReferenceException`), its `.text`, its attribute table, and a
query table mapping each selector the code uses to the list of matching
elements.  A missing attribute is modelled as `""`: Selenium returns `None`
there, and the code only ever tests those values for truthiness or
inequality with a non-empty literal, where `None` and `""` behave alike.
Tag and XPath lookups are stored under `tag:`/`xpath:`-prefixed keys. -/

inductive Elem where
  | node (isStale : Bool) (textVal : String)
      (attrs : List (String × String)) (sub : List (String × List Elem)) : Elem

def alookup : List (String × String) → String → String
  | [], _ => ""
  | (k, v) :: rest, key => if k = key then v else alookup rest key

def qlookup : List (String × List Elem) → String → List Elem
  | [], _ => []
  | (k, v) :: rest, key => if k = key then v else qlookup rest key

def Elem.isStale : Elem → Bool
  | .node b _ _ _ => b

def Elem.textVal : Elem → String
  | .node _ t _ _ => t

def Elem.attr : Elem → String → String
  | .node _ _ attrs _, name => alookup attrs name

def Elem.findEls : Elem → String → List Elem
  | .node _ _ _ sub, k => qlookup sub k

def Elem.findEl? (e : Elem) (k : String) : Option Elem := (e.findEls k).head?

/-- `elem.text`, raising on staleness. -/
def Elem.textE (e : Elem) : Except ScrapeErr String :=
  if e.isStale then .error .staleElem else .ok e.textVal

/-- `elem.get_attribute(name)`, raising on staleness. -/
def Elem.attrE (e : Elem) (name : String) : Except ScrapeErr String :=
  if e.isStale then .error .staleElem else .ok (e.attr name)

/-- `elem.find_element(...)`: staleness of the parent raises; an absent
match is `none` (the `NoSuchElementException` case). -/
def Elem.findElE (e : Elem) (k : String) : Except ScrapeErr (Option Elem) :=
  if e.isStale then .error .staleElem else .ok (e.findEl? k)

/-- `elem.find_elements(...)`, raising on parent staleness. -/
def Elem.findElsE (e : Elem) (k : String) : Except ScrapeErr (List Elem) :=
  if e.isStale then .error .staleElem else .ok (e.findEls k)

/-- One loaded detail page: whether the top-level `body` wait succeeds, the
driver-level query table (including the post-click modal section), and
whether the modal wait succeeds after clicking the `Ver listado` control. -/
structure Page where
  loadOk : Bool
  q : List (String × List Elem)
  modalWaitOk : Bool

def Page.findEls (pg : Page) (k : String) : List Elem := qlookup pg.q k

def Page.findEl? (pg : Page) (k : String) : Option Elem := (pg.findEls k).head?

/-- The record `_parse_single_promo` builds, field for field. -/
structure PromoRec where
  link : String
  titulo : Option String
  foto : Option String
  subtitulo : Option String
  comercios : Option String
  store_names : Option (List String)
  store_addresses : Option (List String)
  vigencia : Option String
  bancos : Option (List String)
  tope_reintegro : Option String
  tiempo_acreditacion : Option String
  dias : Option (List String)
  canal : Option String
deriving DecidableEq

/-- The freshly initialised record of lines 110-116. -/
def blankRec (url : String) : PromoRec :=
  ⟨url, none, none, none, none, none, none, none, none, none, none, none, none⟩

/-- The column list documented in the module docstring, in dict order. -/
def promoColumns : List String :=
  ["link", "titulo", "foto", "subtitulo", "comercios",
   "store_names", "store_addresses", "vigencia", "bancos",
   "tope_reintegro", "tiempo_acreditacion", "dias", "canal"]

/-! Selector strings used by `_parse_single_promo`. -/

def kH1 : String := "h1"
def kTituloLabel : String := "label.styles__TextCard-sc-25khzf-6"
def kFoto : String := "div.styles__ImageContainer-sc-25khzf-3 img"
def kSub1 : String := "h1 + p"
def kSub2 : String := "h3.styles_new_description_sub_header__AEMry span"
def kSub3 : String := "div.styles_container_sub_header__JpoUq"
def kBlocks : String :=
  "div.styles__ItemText-sc-25khzf-15,div.styles__ItemSubContainer-sc-waujo0-9"
def kLabel1 : String := "span.styles_sub_item__s3Aiz"
def kLabel2 : String := "p.text-caption-regular"
def kVal1 : String := "span.styles_sub_item_data__kKr1_"
def kVal2 : String := "p.text-body-medium"
def kTagP : String := "tag:p"
def kTagImg : String := "tag:img"
def kSpanAria : String := "span[aria-label]"
def kXpVerListado : String := "xpath:.//p[contains(.,\x27Ver listado\x27)]"
def kSec : String := "section[data-testid=\x27participating-stores-list\x27]"
def kStoreName : String := "p[data-testid=\x27store-name\x27]"
def kStoreAddr : String := "p[data-testid=\x27store-address\x27]"

/-- The local `_safe_text` helper: text of a sub-element, `""` when the
lookup raises `NoSuchElementException`; staleness propagates. -/
def safeText (blk : Elem) (sel : String) : Except ScrapeErr String :=
  match blk.findElE sel with
  | .error e => .error e
  | .ok none => .ok ""
  | .ok (some e) =>
    match e.textE with
    | .error err => .error err
    | .ok t => .ok (pyStrip t)

/-- The block label: first of the two label selectors with non-empty text
(`_safe_text(...) or _safe_text(...)`, short-circuiting). -/
def labelTextOf (blk : Elem) : Except ScrapeErr String :=
  match safeText blk kLabel1 with
  | .error e => .error e
  | .ok a => if a ≠ "" then .ok a else safeText blk kLabel2

/-- The block value: two value selectors, then the second `<p>` child. -/
def valOf (blk : Elem) : Except ScrapeErr String :=
  match safeText blk kVal1 with
  | .error e => .error e
  | .ok v1 =>
    if v1 ≠ "" then .ok v1
    else
      match safeText blk kVal2 with
      | .error e => .error e
      | .ok v2 =>
        if v2 ≠ "" then .ok v2
        else
          match blk.findElsE kTagP with
          | .error e => .error e
          | .ok ps =>
            match ps with
            | _ :: p :: _ =>
              match p.textE with
              | .error e => .error e
              | .ok t => .ok (pyStrip t)
            | _ => .ok ""

/-- `val or None`. -/
def strToOpt (s : String) : Option String := if s = "" then none else some s

/-- `xs or None`. -/
def listToOpt (l : List String) : Option (List String) :=
  if l = [] then none else some l

/-- The bank-logo loop: stripped non-empty `alt` attributes, skipping stale
images. -/
def altList (imgs : List Elem) : List String :=
  imgs.foldl (fun acc img =>
    if img.isStale then acc
    else if img.attr "alt" ≠ "" then acc ++ [pyStrip (img.attr "alt")]
    else acc) []

/-- The day-marker loop: `aria-label` of every span whose `aria-hidden`
attribute is not `"true"`, skipping stale spans.  The labels are appended
as returned, without stripping. -/
def activeFold (spans : List Elem) : List String :=
  spans.foldl (fun acc sp =>
    if sp.isStale then acc
    else if sp.attr "aria-hidden" ≠ "true" then acc ++ [sp.attr "aria-label"]
    else acc) []

/-- The store-name/store-address loops: stripped text of each node,
skipping stale ones. -/
def textFold (ps : List Elem) : List String :=
  ps.foldl (fun acc p => if p.isStale then acc else acc ++ [pyStrip p.textVal]) []

/-- Process one parameter block (the body of the `for blk in blocks` loop,
lines 159-222): derive label and value, then route by label prefix. -/
def procBlock (st : PromoRec × Option Elem) (blk : Elem) :
    Except ScrapeErr (PromoRec × Option Elem) :=
  match labelTextOf blk with
  | .error e => .error e
  | .ok ltxt =>
    if ltxt = "" then .ok st
    else
      match valOf blk with
      | .error e => .error e
      | .ok val =>
        if swStr (lowerStr ltxt) "comercios" then
          if swStr (lowerStr val) "ver listado" then
            match blk.findElE kXpVerListado with
            | .error e => .error e
            | .ok b => .ok ({ st.1 with comercios := strToOpt val }, b)
          else .ok ({ st.1 with comercios := strToOpt val }, st.2)
        else if swStr (lowerStr ltxt) "vigencia" then
          .ok ({ st.1 with vigencia := some val }, st.2)
        else if swStr (lowerStr ltxt) "bancos" then
          match blk.findElsE kTagImg with
          | .error e => .error e
          | .ok imgs => .ok ({ st.1 with bancos := listToOpt (altList imgs) }, st.2)
        else if swStr (lowerStr ltxt) "tope" then
          .ok ({ st.1 with tope_reintegro := some val }, st.2)
        else if swStr (lowerStr ltxt) "tiempo" then
          .ok ({ st.1 with tiempo_acreditacion := some val }, st.2)
        else if strContains (lowerStr ltxt) "usalo" then
          match blk.findElsE kSpanAria with
          | .error e => .error e
          | .ok sps => .ok ({ st.1 with dias := listToOpt (activeFold sps) }, st.2)
        else if swStr (lowerStr ltxt) "desde la" then
          .ok ({ st.1 with canal := some val }, st.2)
        else .ok (st.1, st.2)

/-- The parameter-block loop. -/
def procBlocks (st : PromoRec × Option Elem) :
    List Elem → Except ScrapeErr (PromoRec × Option Elem)
  | [] => .ok st
  | b :: bs =>
    match procBlock st b with
    | .error e => .error e
    | .ok st2 => procBlocks st2 bs

/-- The headline loop (lines 119-124): the first selector that resolves
wins and its stripped text is stored, even when empty. -/
def firstResolved (pg : Page) : List String → Except ScrapeErr (Option String)
  | [] => .ok none
  | c :: cs =>
    match pg.findEl? c with
    | none => firstResolved pg cs
    | some e =>
      match e.textE with
      | .error err => .error err
      | .ok t => .ok (some (pyStrip t))

/-- The subtitle loop (lines 133-142): the first selector that resolves
with non-empty stripped text wins; a resolved-but-empty value lets the
search continue. -/
def firstNonempty (pg : Page) : List String → Except ScrapeErr (Option String)
  | [] => .ok none
  | c :: cs =>
    match pg.findEl? c with
    | none => firstNonempty pg cs
    | some e =>
      match e.textE with
      | .error err => .error err
      | .ok t => if pyStrip t ≠ "" then .ok (some (pyStrip t)) else firstNonempty pg cs

/-- The photo lookup (lines 126-131): single selector, `src` stored as
returned, without stripping. -/
def fotoOf (pg : Page) : Except ScrapeErr (Option String) :=
  match pg.findEl? kFoto with
  | none => .ok none
  | some e =>
    match e.attrE "src" with
    | .error err => .error err
    | .ok v => .ok (some v)

/-- The optional `Ver listado` modal (lines 225-262).  A stale click
target, a wait timeout, or a stale section is swallowed; a section that the
wait reported but `find_element` cannot find raises `NoSuchElementException`
uncaught.  The close-button attempt cannot affect the record (the store
fields are assigned before it) and is not modelled. -/
def modalPhase (pg : Page) (r : PromoRec) (btn : Option Elem) :
    Except ScrapeErr PromoRec :=
  if swStr (lowerStr (r.comercios.getD "")) "ver listado" then
    match btn with
    | none => .ok r
    | some b =>
      if b.isStale then .ok r
      else if !pg.modalWaitOk then .ok r
      else
        match pg.findEl? kSec with
        | none => .error .noSuch
        | some sec =>
          if sec.isStale then .ok r
          else
            .ok { r with
                  store_names := listToOpt (textFold (sec.findEls kStoreName)),
                  store_addresses := listToOpt (textFold (sec.findEls kStoreAddr)) }
  else .ok r

/-- `_parse_single_promo`: load the page (the body wait may propagate a
timeout), fill the three scalar fields, process the parameter blocks,
then run the optional modal expansion. -/
def parse_single_promo (url : String) (pg : Page) : Except ScrapeErr PromoRec :=
  if pg.loadOk then
    match firstResolved pg [kH1, kTituloLabel] with
    | .error e => .error e
    | .ok t =>
      match fotoOf pg with
      | .error e => .error e
      | .ok f =>
        match firstNonempty pg [kSub1, kSub2, kSub3] with
        | .error e => .error e
        | .ok st =>
          match procBlocks ({ blankRec url with titulo := t, foto := f, subtitulo := st }, none)
              (pg.findEls kBlocks) with
          | .error e => .error e
          | .ok st2 => modalPhase pg st2.1 st2.2
  else .error .timeout

/-! ## The Batch Runner (`build_promo_dataframe`)

The result table is modelled from pandas: `pd.DataFrame(list_of_dicts)`
takes its columns from the dicts' keys in order of first appearance — every
record carries the full `PromoRec` key set, so a non-empty batch has exactly
the documented columns, while `pd.DataFrame([])` has none. -/

structure DataFrame where
  columns : List String
  rows : List PromoRec
deriving DecidableEq

/-- Modelled from pandas as described above. -/
def toDataFrame (recs : List PromoRec) : DataFrame :=
  ⟨if recs.isEmpty then [] else promoColumns, recs⟩

/-- Browser-session events: one driver acquired, pages visited, driver
quit.  The `finally` blocks guarantee `release` on every exit path. -/
inductive Ev where
  | acquire
  | release
  | visit (url : String)
deriving DecidableEq

/-- The `for i, u in enumerate(urls)` loop: visit each URL in order,
stopping at the first propagated exception. -/
def buildGo (env : String → Page) :
    List String → Except ScrapeErr (List PromoRec) × List Ev
  | [] => (.ok [], [])
  | u :: us =>
    match parse_single_promo u (env u) with
    | .error e => (.error e, [.visit u])
    | .ok r => ((buildGo env us).1.map (r :: ·), .visit u :: (buildGo env us).2)

/-- `build_promo_dataframe`: one driver for the whole batch, records
assembled into a table, driver quit in `finally`. -/
def build_promo_dataframe (urls : List String) (env : String → Page) :
    Except ScrapeErr DataFrame :=
  (buildGo env urls).1.map toDataFrame

/-- The full event trace of one `build_promo_dataframe` invocation. -/
def buildRunEvents (urls : List String) (env : String → Page) : List Ev :=
  .acquire :: (buildGo env urls).2 ++ [.release]

/-- The full event trace of one `fetch_promo_links` invocation: open the
driver, visit the listing page, run the loop (the landmark search may
raise), quit the driver in `finally`. -/
def fetchRunEvents (_env : FetchEnv) : List Ev :=
  .acquire :: .visit "https://www.modo.com.ar/promos" :: [.release]

/-! ## Structural lemmas about the extractor -/

theorem procBlock_pres {st st' : PromoRec × Option Elem} {blk : Elem}
    (h : procBlock st blk = .ok st') :
    st'.1.link = st.1.link ∧ st'.1.titulo = st.1.titulo ∧ st'.1.foto = st.1.foto ∧
    st'.1.subtitulo = st.1.subtitulo ∧ st'.1.store_names = st.1.store_names ∧
    st'.1.store_addresses = st.1.store_addresses := by
  unfold procBlock at h
  repeat' split at h
  all_goals first
    | (injection h with h2; subst h2; exact ⟨rfl, rfl, rfl, rfl, rfl, rfl⟩)
    | injection h

theorem procBlocks_pres {st st' : PromoRec × Option Elem} {bs : List Elem}
    (h : procBlocks st bs = .ok st') :
    st'.1.link = st.1.link ∧ st'.1.titulo = st.1.titulo ∧ st'.1.foto = st.1.foto ∧
    st'.1.subtitulo = st.1.subtitulo ∧ st'.1.store_names = st.1.store_names ∧
    st'.1.store_addresses = st.1.store_addresses := by
  induction bs generalizing st with
  | nil =>
    rw [procBlocks] at h
    cases h
    exact ⟨rfl, rfl, rfl, rfl, rfl, rfl⟩
  | cons b bs ih =>
    rw [procBlocks] at h
    split at h
    · simp at h
    · rename_i st2 h2
      obtain ⟨a1, a2, a3, a4, a5, a6⟩ := procBlock_pres h2
      obtain ⟨b1, b2, b3, b4, b5, b6⟩ := ih h
      exact ⟨b1.trans a1, b2.trans a2, b3.trans a3, b4.trans a4, b5.trans a5, b6.trans a6⟩

theorem modalPhase_pres {pg : Page} {r r' : PromoRec} {btn : Option Elem}
    (h : modalPhase pg r btn = .ok r') :
    r'.link = r.link ∧ r'.titulo = r.titulo ∧ r'.foto = r.foto ∧
    r'.subtitulo = r.subtitulo ∧ r'.comercios = r.comercios ∧
    r'.vigencia = r.vigencia ∧ r'.bancos = r.bancos ∧
    r'.tope_reintegro = r.tope_reintegro ∧
    r'.tiempo_acreditacion = r.tiempo_acreditacion ∧
    r'.dias = r.dias ∧ r'.canal = r.canal := by
  unfold modalPhase at h
  repeat' split at h
  all_goals first
    | (injection h with h2; subst h2;
       exact ⟨rfl, rfl, rfl, rfl, rfl, rfl, rfl, rfl, rfl, rfl, rfl⟩)
    | injection h

/-- When the final `comercios` value does not start with `ver listado`
(case-insensitively), the modal phase is a no-op. -/
theorem modalPhase_id_of_not_listado {pg : Page} {r r' : PromoRec} {btn : Option Elem}
    (hc : swStr (lowerStr (r.comercios.getD "")) "ver listado" = false)
    (h : modalPhase pg r btn = .ok r') : r' = r := by
  unfold modalPhase at h
  rw [hc] at h
  simp at h
  exact h.symm

/-- Either the modal phase leaves the store fields alone, or it fills both
from the section element's name/address nodes. -/
theorem modalPhase_store {pg : Page} {r r' : PromoRec} {btn : Option Elem}
    (h : modalPhase pg r btn = .ok r') :
    (r'.store_names = r.store_names ∧ r'.store_addresses = r.store_addresses) ∨
    ∃ sec, pg.findEl? kSec = some sec ∧ sec.isStale = false ∧
      r'.store_names = listToOpt (textFold (sec.findEls kStoreName)) ∧
      r'.store_addresses = listToOpt (textFold (sec.findEls kStoreAddr)) := by
  unfold modalPhase at h
  split at h
  · split at h
    · injection h with h2; subst h2; exact Or.inl ⟨rfl, rfl⟩
    · split at h
      · injection h with h2; subst h2; exact Or.inl ⟨rfl, rfl⟩
      · split at h
        · injection h with h2; subst h2; exact Or.inl ⟨rfl, rfl⟩
        · split at h
          · injection h
          · rename_i sec hsec
            split at h
            · injection h with h2; subst h2; exact Or.inl ⟨rfl, rfl⟩
            · rename_i hstale
              injection h with h2; subst h2
              exact Or.inr ⟨sec, hsec, by simpa using hstale, rfl, rfl⟩
  · injection h with h2; subst h2; exact Or.inl ⟨rfl, rfl⟩

/-- A block whose routing reaches the `"usalo" in label` branch. -/
def isDiasBlock (blk : Elem) : Prop :=
  ∃ ltxt, labelTextOf blk = .ok ltxt ∧ ltxt ≠ "" ∧
    swStr (lowerStr ltxt) "comercios" = false ∧
    swStr (lowerStr ltxt) "vigencia" = false ∧
    swStr (lowerStr ltxt) "bancos" = false ∧
    swStr (lowerStr ltxt) "tope" = false ∧
    swStr (lowerStr ltxt) "tiempo" = false ∧
    strContains (lowerStr ltxt) "usalo" = true

theorem procBlock_dias {st st' : PromoRec × Option Elem} {blk : Elem}
    (h : procBlock st blk = .ok st') :
    st'.1.dias = st.1.dias ∨
    (isDiasBlock blk ∧ st'.1.dias = listToOpt (activeFold (blk.findEls kSpanAria))) := by
  unfold procBlock at h
  split at h
  · injection h
  · rename_i ltxt hlab
    split at h
    · injection h with h2; subst h2; exact Or.inl rfl
    · rename_i hne
      split at h
      · injection h
      · split at h
        · split at h
          · split at h
            · injection h
            · injection h with h2; subst h2; exact Or.inl rfl
          · injection h with h2; subst h2; exact Or.inl rfl
        · rename_i hcom
          split at h
          · injection h with h2; subst h2; exact Or.inl rfl
          · rename_i hvig
            split at h
            · split at h
              · injection h
              · injection h with h2; subst h2; exact Or.inl rfl
            · rename_i hban
              split at h
              · injection h with h2; subst h2; exact Or.inl rfl
              · rename_i htope
                split at h
                · injection h with h2; subst h2; exact Or.inl rfl
                · rename_i htiempo
                  split at h
                  · rename_i husalo
                    split at h
                    · injection h
                    · rename_i sps hsps
                      injection h with h2; subst h2
                      have hsps2 : sps = blk.findEls kSpanAria := by
                        unfold Elem.findElsE at hsps
                        split at hsps
                        · injection hsps
                        · injection hsps with h3; exact h3.symm
                      refine Or.inr ⟨⟨ltxt, hlab, hne, ?_, ?_, ?_, ?_, ?_, husalo⟩, ?_⟩
                      · simpa using hcom
                      · simpa using hvig
                      · simpa using hban
                      · simpa using htope
                      · simpa using htiempo
                      · rw [← hsps2]
                  · split at h
                    · injection h with h2; subst h2; exact Or.inl rfl
                    · injection h with h2; subst h2; exact Or.inl rfl

theorem procBlocks_dias {st st' : PromoRec × Option Elem} {bs : List Elem}
    (h : procBlocks st bs = .ok st') :
    st'.1.dias = st.1.dias ∨
    ∃ b ∈ bs, isDiasBlock b ∧
      st'.1.dias = listToOpt (activeFold (b.findEls kSpanAria)) := by
  induction bs generalizing st with
  | nil => rw [procBlocks] at h; injection h with h2; subst h2; exact Or.inl rfl
  | cons b bs ih =>
    rw [procBlocks] at h
    split at h
    · injection h
    · rename_i st2 h2
      rcases ih h with h3 | ⟨b2, hb2, hd, he⟩
      · rcases procBlock_dias h2 with h4 | ⟨hdb, he⟩
        · exact Or.inl (h3.trans h4)
        · exact Or.inr ⟨b, List.mem_cons_self b bs, hdb, h3.trans he⟩
      · exact Or.inr ⟨b2, List.mem_cons.mpr (Or.inr hb2), hd, he⟩

theorem foldl_snoc {α : Type} (p : α → Bool) (f : α → String) (l : List α)
    (init : List String) :
    l.foldl (fun acc x => if p x then acc ++ [f x] else acc) init
      = init ++ (l.filter p).map f := by
  induction l generalizing init with
  | nil => simp
  | cons a l ih =>
    rw [List.foldl_cons, List.filter_cons]
    by_cases hp : p a
    · rw [if_pos hp, if_pos hp, ih, List.map_cons]
      simp
    · rw [if_neg hp, if_neg hp, ih]

/-- The claim-side reading of the day loop: the `aria-label` values of
exactly those matched spans that are not stale and whose `aria-hidden`
attribute is not the string `"true"`. -/
def activeDias (spans : List Elem) : List String :=
  (spans.filter (fun sp => !sp.isStale && sp.attr "aria-hidden" != "true")).map
    (fun sp => sp.attr "aria-label")

theorem activeFold_eq (spans : List Elem) : activeFold spans = activeDias spans := by
  unfold activeFold activeDias
  have hfun : (fun (acc : List String) (sp : Elem) =>
        if sp.isStale then acc
        else if sp.attr "aria-hidden" ≠ "true" then acc ++ [sp.attr "aria-label"]
        else acc)
      = (fun acc sp =>
        if !sp.isStale && sp.attr "aria-hidden" != "true" then
          acc ++ [sp.attr "aria-label"]
        else acc) := by
    funext acc sp
    by_cases h1 : sp.isStale
    · simp [h1]
    · by_cases h2 : sp.attr "aria-hidden" = "true"
      · simp [h1, h2]
      · simp [h1, h2]
  rw [hfun, foldl_snoc]
  simp

/-- The claim-side reading of the bank-logo loop. -/
def bancosAlts (imgs : List Elem) : List String :=
  (imgs.filter (fun i => !i.isStale && i.attr "alt" != "")).map
    (fun i => pyStrip (i.attr "alt"))

theorem altList_eq (imgs : List Elem) : altList imgs = bancosAlts imgs := by
  unfold altList bancosAlts
  have hfun : (fun (acc : List String) (img : Elem) =>
        if img.isStale then acc
        else if img.attr "alt" ≠ "" then acc ++ [pyStrip (img.attr "alt")]
        else acc)
      = (fun acc img =>
        if !img.isStale && img.attr "alt" != "" then
          acc ++ [pyStrip (img.attr "alt")]
        else acc) := by
    funext acc img
    by_cases h1 : img.isStale
    · simp [h1]
    · by_cases h2 : img.attr "alt" = ""
      · simp [h1, h2]
      · simp [h1, h2]
  rw [hfun, foldl_snoc]
  simp

/-- The claim-side reading of the store name/address loops. -/
def storeTexts (ps : List Elem) : List String :=
  (ps.filter (fun p => !p.isStale)).map (fun p => pyStrip p.textVal)

theorem textFold_eq (ps : List Elem) : textFold ps = storeTexts ps := by
  unfold textFold storeTexts
  have hfun : (fun (acc : List String) (p : Elem) =>
        if p.isStale then acc else acc ++ [pyStrip p.textVal])
      = (fun acc p => if !p.isStale then acc ++ [pyStrip p.textVal] else acc) := by
    funext acc p
    by_cases h1 : p.isStale
    · simp [h1]
    · simp [h1]
  rw [hfun, foldl_snoc]
  simp

theorem mem_textFold_strip {ps : List Elem} {s : String} (h : s ∈ textFold ps) :
    ∃ raw, s = pyStrip raw := by
  rw [textFold_eq] at h
  unfold storeTexts at h
  obtain ⟨p, _, hp⟩ := List.mem_map.mp h
  exact ⟨p.textVal, hp.symm⟩

theorem mem_altList_strip {imgs : List Elem} {s : String} (h : s ∈ altList imgs) :
    ∃ raw, s = pyStrip raw := by
  rw [altList_eq] at h
  unfold bancosAlts at h
  obtain ⟨i, _, hi⟩ := List.mem_map.mp h
  exact ⟨i.attr "alt", hi.symm⟩

theorem safeText_strip {blk : Elem} {sel s : String}
    (h : safeText blk sel = .ok s) : ∃ raw, s = pyStrip raw := by
  unfold safeText at h
  split at h
  · injection h
  · injection h with h2; exact ⟨"", h2.symm⟩
  · split at h
    · injection h
    · injection h with h2; exact ⟨_, h2.symm⟩

theorem valOf_strip {blk : Elem} {v : String} (h : valOf blk = .ok v) :
    ∃ raw, v = pyStrip raw := by
  unfold valOf at h
  split at h
  · injection h
  · rename_i v1 h1
    split at h
    · injection h with h2
      obtain ⟨raw, hr⟩ := safeText_strip h1
      exact ⟨raw, h2 ▸ hr⟩
    · split at h
      · injection h
      · rename_i v2 h2s
        split at h
        · injection h with h2
          obtain ⟨raw, hr⟩ := safeText_strip h2s
          exact ⟨raw, h2 ▸ hr⟩
        · split at h
          · injection h
          · split at h
            · split at h
              · injection h
              · injection h with h2; exact ⟨_, h2.symm⟩
            · injection h with h2; exact ⟨"", h2.symm⟩

theorem firstResolved_strip {pg : Page} {l : List String} {s : String}
    (h : firstResolved pg l = .ok (some s)) : ∃ raw, s = pyStrip raw := by
  induction l with
  | nil => rw [firstResolved] at h; injection h with h2; injection h2
  | cons c cs ih =>
    rw [firstResolved] at h
    split at h
    · exact ih h
    · split at h
      · injection h
      · injection h with h2
        injection h2 with h3
        exact ⟨_, h3.symm⟩

theorem firstNonempty_strip {pg : Page} {l : List String} {s : String}
    (h : firstNonempty pg l = .ok (some s)) : (∃ raw, s = pyStrip raw) ∧ s ≠ "" := by
  induction l with
  | nil => rw [firstNonempty] at h; injection h with h2; injection h2
  | cons c cs ih =>
    rw [firstNonempty] at h
    split at h
    · exact ih h
    · split at h
      · injection h
      · split at h
        · rename_i hne
          injection h with h2
          injection h2 with h3
          exact ⟨⟨_, h3.symm⟩, h3 ▸ hne⟩
        · exact ih h

/-! ## The stored-string invariant (trimming discipline) -/

/-- A scalar field is null or holds a stripped, non-whitespace-only value. -/
def TrimmedField : Option String → Prop
  | none => True
  | some s => GoodStr s

/-- A scalar field that additionally can never hold the empty string. -/
def NonemptyField : Option String → Prop
  | none => True
  | some s => GoodStr s ∧ s ≠ ""

/-- A sequence field is null or a non-empty list of stripped entries. -/
def TrimmedList : Option (List String) → Prop
  | none => True
  | some l => l ≠ [] ∧ ∀ s ∈ l, GoodStr s

/-- The `dias` field is null or a non-empty list; its entries are verbatim
`aria-label` values and carry no trimming guarantee. -/
def DiasOk : Option (List String) → Prop
  | none => True
  | some l => l ≠ []

/-- The per-record trimming discipline the extractor actually maintains:
every stored string except `foto` and the entries of `dias` is the result
of `.strip()`. -/
structure RecordTrimmed (r : PromoRec) : Prop where
  htitulo : TrimmedField r.titulo
  hsub : NonemptyField r.subtitulo
  hcom : NonemptyField r.comercios
  hvig : TrimmedField r.vigencia
  htope : TrimmedField r.tope_reintegro
  htiempo : TrimmedField r.tiempo_acreditacion
  hcanal : TrimmedField r.canal
  hbancos : TrimmedList r.bancos
  hdias : DiasOk r.dias
  hnames : TrimmedList r.store_names
  haddrs : TrimmedList r.store_addresses

theorem trimmedField_some {val : String} (hv : ∃ raw, val = pyStrip raw) :
    TrimmedField (some val) := by
  obtain ⟨raw, hr⟩ := hv
  show GoodStr val
  rw [hr]
  exact goodStr_of_strip raw

theorem nonemptyField_strToOpt {val : String} (hv : ∃ raw, val = pyStrip raw) :
    NonemptyField (strToOpt val) := by
  unfold strToOpt
  split
  · trivial
  · rename_i hne
    obtain ⟨raw, hr⟩ := hv
    exact ⟨by rw [hr]; exact goodStr_of_strip raw, hne⟩

theorem trimmedList_listToOpt {l : List String} (hl : ∀ s ∈ l, GoodStr s) :
    TrimmedList (listToOpt l) := by
  unfold listToOpt
  split
  · trivial
  · rename_i hne
    exact ⟨hne, hl⟩

theorem diasOk_listToOpt (l : List String) : DiasOk (listToOpt l) := by
  unfold listToOpt
  split
  · trivial
  · rename_i hne
    exact hne

theorem procBlock_trimmed {st st' : PromoRec × Option Elem} {blk : Elem}
    (h : procBlock st blk = .ok st') (hi : RecordTrimmed st.1) :
    RecordTrimmed st'.1 := by
  unfold procBlock at h
  split at h
  · injection h
  · rename_i ltxt hlab
    split at h
    · injection h with h2; subst h2; exact hi
    · split at h
      · injection h
      · rename_i val hval
        have hvs := valOf_strip hval
        split at h
        · split at h
          · split at h
            · injection h
            · injection h with h2; subst h2
              exact ⟨hi.htitulo, hi.hsub, nonemptyField_strToOpt hvs, hi.hvig,
                hi.htope, hi.htiempo, hi.hcanal, hi.hbancos, hi.hdias,
                hi.hnames, hi.haddrs⟩
          · injection h with h2; subst h2
            exact ⟨hi.htitulo, hi.hsub, nonemptyField_strToOpt hvs, hi.hvig,
              hi.htope, hi.htiempo, hi.hcanal, hi.hbancos, hi.hdias,
              hi.hnames, hi.haddrs⟩
        · split at h
          · injection h with h2; subst h2
            exact ⟨hi.htitulo, hi.hsub, hi.hcom, trimmedField_some hvs,
              hi.htope, hi.htiempo, hi.hcanal, hi.hbancos, hi.hdias,
              hi.hnames, hi.haddrs⟩
          · split at h
            · split at h
              · injection h
              · rename_i imgs himgs
                injection h with h2; subst h2
                refine ⟨hi.htitulo, hi.hsub, hi.hcom, hi.hvig, hi.htope,
                  hi.htiempo, hi.hcanal, ?_, hi.hdias, hi.hnames, hi.haddrs⟩
                apply trimmedList_listToOpt
                intro s hs
                obtain ⟨raw, hr⟩ := mem_altList_strip hs
                rw [hr]; exact goodStr_of_strip raw
            · split at h
              · injection h with h2; subst h2
                exact ⟨hi.htitulo, hi.hsub, hi.hcom, hi.hvig,
                  trimmedField_some hvs, hi.htiempo, hi.hcanal, hi.hbancos,
                  hi.hdias, hi.hnames, hi.haddrs⟩
              · split at h
                · injection h with h2; subst h2
                  exact ⟨hi.htitulo, hi.hsub, hi.hcom, hi.hvig, hi.htope,
                    trimmedField_some hvs, hi.hcanal, hi.hbancos, hi.hdias,
                    hi.hnames, hi.haddrs⟩
                · split at h
                  · split at h
                    · injection h
                    · injection h with h2; subst h2
                      exact ⟨hi.htitulo, hi.hsub, hi.hcom, hi.hvig, hi.htope,
                        hi.htiempo, hi.hcanal, hi.hbancos, diasOk_listToOpt _,
                        hi.hnames, hi.haddrs⟩
                  · split at h
                    · injection h with h2; subst h2
                      exact ⟨hi.htitulo, hi.hsub, hi.hcom, hi.hvig, hi.htope,
                        hi.htiempo, trimmedField_some hvs, hi.hbancos,
                        hi.hdias, hi.hnames, hi.haddrs⟩
                    · injection h with h2; subst h2
                      exact ⟨hi.htitulo, hi.hsub, hi.hcom, hi.hvig, hi.htope,
                        hi.htiempo, hi.hcanal, hi.hbancos, hi.hdias,
                        hi.hnames, hi.haddrs⟩

theorem procBlocks_trimmed {st st' : PromoRec × Option Elem} {bs : List Elem}
    (h : procBlocks st bs = .ok st') (hi : RecordTrimmed st.1) :
    RecordTrimmed st'.1 := by
  induction bs generalizing st with
  | nil => rw [procBlocks] at h; injection h with h2; subst h2; exact hi
  | cons b bs ih =>
    rw [procBlocks] at h
    split at h
    · injection h
    · rename_i st2 h2
      exact ih h (procBlock_trimmed h2 hi)

theorem modalPhase_trimmed {pg : Page} {r r' : PromoRec} {btn : Option Elem}
    (h : modalPhase pg r btn = .ok r') (hi : RecordTrimmed r) :
    RecordTrimmed r' := by
  obtain ⟨_, ht, _, hsb, hcm, hvg, hbc, htp, htm, hd, hcn⟩ := modalPhase_pres h
  have hgood : ∀ ps : List Elem, TrimmedList (listToOpt (textFold ps)) := by
    intro ps
    apply trimmedList_listToOpt
    intro s hs
    obtain ⟨raw, hr⟩ := mem_textFold_strip hs
    rw [hr]; exact goodStr_of_strip raw
  rcases modalPhase_store h with ⟨h1, h2⟩ | ⟨sec, _, _, h1, h2⟩
  · refine ⟨?_, ?_, ?_, ?_, ?_, ?_, ?_, ?_, ?_, ?_, ?_⟩
    · rw [ht]; exact hi.htitulo
    · rw [hsb]; exact hi.hsub
    · rw [hcm]; exact hi.hcom
    · rw [hvg]; exact hi.hvig
    · rw [htp]; exact hi.htope
    · rw [htm]; exact hi.htiempo
    · rw [hcn]; exact hi.hcanal
    · rw [hbc]; exact hi.hbancos
    · rw [hd]; exact hi.hdias
    · rw [h1]; exact hi.hnames
    · rw [h2]; exact hi.haddrs
  · refine ⟨?_, ?_, ?_, ?_, ?_, ?_, ?_, ?_, ?_, ?_, ?_⟩
    · rw [ht]; exact hi.htitulo
    · rw [hsb]; exact hi.hsub
    · rw [hcm]; exact hi.hcom
    · rw [hvg]; exact hi.hvig
    · rw [htp]; exact hi.htope
    · rw [htm]; exact hi.htiempo
    · rw [hcn]; exact hi.hcanal
    · rw [hbc]; exact hi.hbancos
    · rw [hd]; exact hi.hdias
    · rw [h1]; exact hgood _
    · rw [h2]; exact hgood _

/-- Decomposition of a successful `_parse_single_promo` run into its
phases. -/
theorem parse_ok_parts {url : String} {pg : Page} {rec : PromoRec}
    (h : parse_single_promo url pg = .ok rec) :
    pg.loadOk = true ∧
    ∃ t f sb st2,
      firstResolved pg [kH1, kTituloLabel] = .ok t ∧
      fotoOf pg = .ok f ∧
      firstNonempty pg [kSub1, kSub2, kSub3] = .ok sb ∧
      procBlocks ({ blankRec url with titulo := t, foto := f, subtitulo := sb }, none)
        (pg.findEls kBlocks) = .ok st2 ∧
      modalPhase pg st2.1 st2.2 = .ok rec := by
  unfold parse_single_promo at h
  split at h
  · rename_i hload
    split at h
    · injection h
    · rename_i t ht
      split at h
      · injection h
      · rename_i f hf
        split at h
        · injection h
        · rename_i sb hsb
          split at h
          · injection h
          · rename_i st2 hst2
            exact ⟨hload, t, f, sb, st2, ht, hf, hsb, hst2, h⟩
  · injection h

theorem parse_link {url : String} {pg : Page} {rec : PromoRec}
    (h : parse_single_promo url pg = .ok rec) : rec.link = url := by
  obtain ⟨-, t, f, sb, st2, -, -, -, hpb, hm⟩ := parse_ok_parts h
  have h1 := (procBlocks_pres hpb).1
  have h2 := (modalPhase_pres hm).1
  rw [h2, h1]
  rfl

theorem parse_titulo {url : String} {pg : Page} {rec : PromoRec}
    (h : parse_single_promo url pg = .ok rec) :
    firstResolved pg [kH1, kTituloLabel] = .ok rec.titulo := by
  obtain ⟨-, t, f, sb, st2, ht, -, -, hpb, hm⟩ := parse_ok_parts h
  have h1 := (procBlocks_pres hpb).2.1
  have h2 := (modalPhase_pres hm).2.1
  rw [h2, h1]
  exact ht

theorem parse_subtitulo {url : String} {pg : Page} {rec : PromoRec}
    (h : parse_single_promo url pg = .ok rec) :
    firstNonempty pg [kSub1, kSub2, kSub3] = .ok rec.subtitulo := by
  obtain ⟨-, t, f, sb, st2, -, -, hsb, hpb, hm⟩ := parse_ok_parts h
  have h1 := (procBlocks_pres hpb).2.2.2.1
  have h2 := (modalPhase_pres hm).2.2.2.1
  rw [h2, h1]
  exact hsb

theorem parse_foto {url : String} {pg : Page} {rec : PromoRec}
    (h : parse_single_promo url pg = .ok rec) :
    fotoOf pg = .ok rec.foto := by
  obtain ⟨-, t, f, sb, st2, -, hf, -, hpb, hm⟩ := parse_ok_parts h
  have h1 := (procBlocks_pres hpb).2.2.1
  have h2 := (modalPhase_pres hm).2.2.1
  rw [h2, h1]
  exact hf

theorem listToOpt_eq_some {l m : List String} (h : listToOpt l = some m) :
    m = l ∧ l ≠ [] := by
  unfold listToOpt at h
  split at h
  · injection h
  · rename_i hne
    injection h with h2
    exact ⟨h2.symm, hne⟩

/-! ## Claims -/

/-- C5: on a detail page where the body wait succeeds but every optional
selector fails to resolve, `_parse_single_promo` raises nothing and returns
a record whose `link` is the input URL and whose every other field is
null. -/
theorem C5_all_optional_missing {url : String} {pg : Page}
    (hload : pg.loadOk = true) (hq : ∀ k, pg.findEls k = []) :
    parse_single_promo url pg = .ok (blankRec url) := by
  have hfe : ∀ k, pg.findEl? k = none := by
    intro k
    unfold Page.findEl?
    rw [hq]
    rfl
  unfold parse_single_promo
  rw [if_pos hload]
  rw [show firstResolved pg [kH1, kTituloLabel] = .ok none from by
    simp [firstResolved, hfe]]
  rw [show fotoOf pg = .ok none from by simp [fotoOf, hfe]]
  rw [show firstNonempty pg [kSub1, kSub2, kSub3] = .ok none from by
    simp [firstNonempty, hfe]]
  rw [hq kBlocks]
  rfl

theorem C5_witness :
    parse_single_promo "https://www.modo.com.ar/promos/demo" ⟨true, [], true⟩ =
      .ok (blankRec "https://www.modo.com.ar/promos/demo") :=
  C5_all_optional_missing rfl (fun _ => rfl)

/-- C10: with `max_stalls ≤ 0` the `while stalls < max_stalls` loop body
never runs, and the collector (after locating the landmark) returns the
empty list. -/
theorem C10_nonpositive_stalls {maxStalls : Int} {env : FetchEnv}
    (hms : maxStalls ≤ 0) (hf : env.helperFound = true) :
    fetch_promo_links maxStalls env = .ok [] := by
  have hloop : ∀ steps, collectLoop maxStalls steps [] 0 (-1) = [] := by
    intro steps
    cases steps with
    | nil => rfl
    | cons s rest =>
      rw [collectLoop, if_neg (by omega : ¬((0 : Int) < maxStalls))]
  unfold fetch_promo_links
  rw [hf, if_pos rfl, hloop]

theorem C10_witness :
    fetch_promo_links 0 ⟨true, [⟨0, 10, 5, 200, ["/promos/x"]⟩]⟩ = .ok [] :=
  C10_nonpositive_stalls (by decide) rfl

/-- C3 (amended): the Link Collector's result is lexicographically sorted
with no duplicates and consists of absolute URLs; a same-origin guarantee
does not hold (see the counterexample), since absolute `href` values keep
their own origin through `urljoin`. -/
theorem C3_sorted_unique_absolute {maxStalls : Int} {env : FetchEnv}
    {links : List String} (h : fetch_promo_links maxStalls env = .ok links) :
    StrictSorted links ∧ links.Nodup ∧ ∀ u ∈ links, isAbsoluteUrl u = true := by
  unfold fetch_promo_links at h
  split at h
  · injection h with h2
    subst h2
    obtain ⟨hs, hp⟩ := collectLoop_inv maxStalls (fun u => isAbsoluteUrl u = true)
      (fun href _ => isAbsolute_urljoinModo href) env.steps [] 0 (-1)
      List.Pairwise.nil (by intro u hu; simp at hu)
    exact ⟨hs, List.Pairwise.imp (fun hab => pyLt_ne hab) hs, hp⟩
  · injection h

/-- C3, refuting the same-origin conjunct: a card whose `href` is an
absolute URL on a foreign origin is returned as-is. -/
theorem C3_counterexample :
    fetch_promo_links 2 ⟨true, [⟨0, 10, 5, 200, ["https://evil.example/x"]⟩]⟩ =
      .ok ["https://evil.example/x"] ∧
    originOf "https://evil.example/x" ≠ originOf BASE := by
  constructor
  · rfl
  · decide

theorem C3_witness :
    StrictSorted ["https://evil.example/x", "https://www.modo.com.ar/promo/a"] ∧
    (["https://evil.example/x", "https://www.modo.com.ar/promo/a"] : List String).Nodup ∧
    ∀ u ∈ (["https://evil.example/x", "https://www.modo.com.ar/promo/a"] : List String),
      isAbsoluteUrl u = true :=
  C3_sorted_unique_absolute
    (rfl :
      fetch_promo_links 2 ⟨true, [⟨0, 10, 5, 200, ["https://evil.example/x", "/promo/a"]⟩]⟩ =
        .ok ["https://evil.example/x", "https://www.modo.com.ar/promo/a"])

/-- C9: each of the two session-owning entry points opens exactly one
browser session per invocation and the `finally` block closes it on every
exit path: the trace always holds one `acquire`, one `release`, and ends in
`release`, whatever the environment does. -/
theorem C9_session_cleanup (env : FetchEnv) (urls : List String)
    (penv : String → Page) :
    (fetchRunEvents env).count .acquire = 1 ∧
    (fetchRunEvents env).count .release = 1 ∧
    (fetchRunEvents env).getLast? = some .release ∧
    (buildRunEvents urls penv).count .acquire = 1 ∧
    (buildRunEvents urls penv).count .release = 1 ∧
    (buildRunEvents urls penv).getLast? = some .release := by
  have hvisits : ∀ us : List String, ∀ e ∈ (buildGo penv us).2, ∃ u, e = Ev.visit u := by
    intro us
    induction us with
    | nil => intro e he; simp [buildGo] at he
    | cons u us ih =>
      intro e he
      rcases hpe : parse_single_promo u (penv u) with e2 | r
      · rw [buildGo, hpe] at he
        simp at he
        exact ⟨u, he⟩
      · rw [buildGo, hpe] at he
        rcases List.mem_cons.mp he with h1 | h1
        · exact ⟨u, h1⟩
        · exact ih e h1
  have h1 : Ev.acquire ∉ (buildGo penv urls).2 := by
    intro hm
    obtain ⟨u, hu⟩ := hvisits urls _ hm
    exact Ev.noConfusion hu
  have h2 : Ev.release ∉ (buildGo penv urls).2 := by
    intro hm
    obtain ⟨u, hu⟩ := hvisits urls _ hm
    exact Ev.noConfusion hu
  refine ⟨rfl, rfl, rfl, ?_, ?_, ?_⟩
  · show (Ev.acquire :: ((buildGo penv urls).2 ++ [Ev.release])).count Ev.acquire = 1
    rw [List.count_cons_self, List.count_append, List.count_eq_zero.mpr h1]
    decide
  · show (Ev.acquire :: ((buildGo penv urls).2 ++ [Ev.release])).count Ev.release = 1
    rw [List.count_cons_of_ne (by decide), List.count_append,
      List.count_eq_zero.mpr h2]
    decide
  · show (Ev.acquire :: ((buildGo penv urls).2 ++ [Ev.release])).getLast? = some Ev.release
    rw [← List.cons_append]
    exact List.getLast?_concat _

/-- C7: when the final `comercios` value does not case-insensitively start
with `ver listado`, the modal expansion never runs and both store lists
stay null. -/
theorem C7_stores_null_without_listado {url : String} {pg : Page} {rec : PromoRec}
    (h : parse_single_promo url pg = .ok rec)
    (hc : swStr (lowerStr (rec.comercios.getD "")) "ver listado" = false) :
    rec.store_names = none ∧ rec.store_addresses = none := by
  obtain ⟨-, t, f, sb, st2, -, -, -, hpb, hm⟩ := parse_ok_parts h
  have hcom := (modalPhase_pres hm).2.2.2.2.1
  have hid : rec = st2.1 := modalPhase_id_of_not_listado (by rw [← hcom]; exact hc) hm
  have hstore := procBlocks_pres hpb
  rw [hid]
  exact ⟨hstore.2.2.2.2.1.trans rfl, hstore.2.2.2.2.2.trans rfl⟩

def blockW7 : Elem :=
  .node false "" []
    [(kLabel1, [.node false "Comercios" [] []]),
     (kVal1, [.node false "Solo app" [] []])]

def pgW7 : Page := ⟨true, [(kBlocks, [blockW7])], true⟩

def recW7 : PromoRec := { blankRec "w7" with comercios := some "Solo app" }

theorem C7_witness : recW7.store_names = none ∧ recW7.store_addresses = none :=
  C7_stores_null_without_listado
    (rfl : parse_single_promo "w7" pgW7 = .ok recW7) rfl

/-- C6: a non-null `dias` comes from a parameter block routed to the
`"usalo"` branch, and its entries are exactly the `aria-label` values of
that block's matched day-marker spans that are not stale and whose
`aria-hidden` attribute is not `"true"`. -/
theorem C6_dias_active_days {url : String} {pg : Page} {rec : PromoRec}
    {l : List String} (h : parse_single_promo url pg = .ok rec)
    (hd : rec.dias = some l) :
    ∃ b ∈ pg.findEls kBlocks, isDiasBlock b ∧
      l = activeDias (b.findEls kSpanAria) ∧ l ≠ [] := by
  obtain ⟨-, t, f, sb, st2, -, -, -, hpb, hm⟩ := parse_ok_parts h
  have hmd := (modalPhase_pres hm).2.2.2.2.2.2.2.2.2.1
  rcases procBlocks_dias hpb with h1 | ⟨b, hb, hdb, he⟩
  · rw [hmd, h1] at hd
    exact Option.noConfusion hd
  · rw [hmd, he] at hd
    obtain ⟨hll, hne⟩ := listToOpt_eq_some hd
    refine ⟨b, hb, hdb, ?_, ?_⟩
    · rw [hll]
      exact activeFold_eq _
    · rw [hll]
      exact hne

def spanHidW6 : Elem := .node false "" [("aria-hidden", "true"), ("aria-label", "LU")] []

def spanVisW6 : Elem := .node false "" [("aria-label", "MA")] []

def blockW6 : Elem :=
  .node false "" []
    [(kLabel1, [.node false "Usalo estos dias" [] []]),
     (kSpanAria, [spanHidW6, spanVisW6])]

def pgW6 : Page := ⟨true, [(kBlocks, [blockW6])], true⟩

def recW6 : PromoRec := { blankRec "w6" with dias := some ["MA"] }

theorem C6_witness :
    ∃ b ∈ pgW6.findEls kBlocks, isDiasBlock b ∧
      (["MA"] : List String) = activeDias (b.findEls kSpanAria) ∧
      (["MA"] : List String) ≠ [] :=
  C6_dias_active_days (rfl : parse_single_promo "w6" pgW6 = .ok recW6) rfl

/-- C4 (amended): `link` is never null, and trimming is applied to every
stored string except `foto` (the raw `src` attribute) and the entries of
`dias` (raw `aria-label` values); `subtitulo` and `comercios` are
additionally never empty, and non-null sequences are non-empty. -/
theorem C4_trimming {url : String} {pg : Page} {rec : PromoRec}
    (h : parse_single_promo url pg = .ok rec) :
    rec.link = url ∧ RecordTrimmed rec := by
  refine ⟨parse_link h, ?_⟩
  obtain ⟨-, t, f, sb, st2, ht, -, hsb, hpb, hm⟩ := parse_ok_parts h
  have h0 : RecordTrimmed ({ blankRec url with titulo := t, foto := f, subtitulo := sb } : PromoRec) := by
    refine ⟨?_, ?_, trivial, trivial, trivial, trivial, trivial, trivial,
      trivial, trivial, trivial⟩
    · cases t with
      | none => trivial
      | some s => exact trimmedField_some (firstResolved_strip ht)
    · cases sb with
      | none => trivial
      | some s =>
        obtain ⟨⟨raw, hraw⟩, hne⟩ := firstNonempty_strip hsb
        exact ⟨by rw [hraw]; exact goodStr_of_strip raw, hne⟩
  exact modalPhase_trimmed hm (procBlocks_trimmed hpb h0)

def fotoC4 : Elem := .node false "" [("src", "  ")] []

def blockC4 : Elem :=
  .node false "" []
    [(kLabel1, [.node false "Usalo" [] []]),
     (kSpanAria, [.node false "" [("aria-label", " ")] []])]

def pgC4 : Page := ⟨true, [(kFoto, [fotoC4]), (kBlocks, [blockC4])], true⟩

def recC4 : PromoRec := { blankRec "u4" with foto := some "  ", dias := some [" "] }

/-- C4, refuted as stated: `foto` and `dias` entries are stored without
trimming, so whitespace-only values survive. -/
theorem C4_counterexample :
    ∃ rec, parse_single_promo "u4" pgC4 = .ok rec ∧
      rec.dias = some [" "] ∧ rec.foto = some "  " ∧ WsOnly " " ∧ WsOnly "  " :=
  ⟨recC4, rfl, rfl, rfl, ⟨by decide, by decide⟩, ⟨by decide, by decide⟩⟩

def blockW4 : Elem :=
  .node false "" []
    [(kLabel1, [.node false "Vigencia" [] []]),
     (kVal1, [.node false " Hasta 30-06 " [] []])]

def pgW4 : Page := ⟨true, [(kBlocks, [blockW4])], true⟩

def recW4 : PromoRec := { blankRec "w4" with vigencia := some "Hasta 30-06" }

theorem C4_witness : recW4.link = "w4" ∧ RecordTrimmed recW4 :=
  C4_trimming (rfl : parse_single_promo "w4" pgW4 = .ok recW4)

/-- C2 (amended): `subtitulo` takes the first alternative that resolves
with non-empty stripped text and a resolved-but-empty value lets the search
continue; `titulo`, in contrast, stores the text of the first alternative
that resolves even when it is empty, and `foto` stores the single
selector's `src` attribute unconditionally. -/
theorem C2_selector_fallbacks {url : String} {pg : Page} {rec : PromoRec}
    (h : parse_single_promo url pg = .ok rec) :
    (∀ e, pg.findEl? kH1 = some e → e.isStale = false →
      rec.titulo = some (pyStrip e.textVal)) ∧
    (pg.findEl? kH1 = none →
      ∀ e, pg.findEl? kTituloLabel = some e → e.isStale = false →
        rec.titulo = some (pyStrip e.textVal)) ∧
    (∀ e, pg.findEl? kSub1 = some e → e.isStale = false → pyStrip e.textVal ≠ "" →
      rec.subtitulo = some (pyStrip e.textVal)) ∧
    (∀ e e2, pg.findEl? kSub1 = some e → e.isStale = false → pyStrip e.textVal = "" →
      pg.findEl? kSub2 = some e2 → e2.isStale = false → pyStrip e2.textVal ≠ "" →
      rec.subtitulo = some (pyStrip e2.textVal)) ∧
    (∀ e, pg.findEl? kFoto = some e → e.isStale = false →
      rec.foto = some (e.attr "src")) := by
  have ht := parse_titulo h
  have hs := parse_subtitulo h
  have hf := parse_foto h
  refine ⟨?_, ?_, ?_, ?_, ?_⟩
  · intro e h1 h2
    simp [firstResolved, h1, Elem.textE, h2] at ht
    exact ht.symm
  · intro h0 e h1 h2
    simp [firstResolved, h0, h1, Elem.textE, h2] at ht
    exact ht.symm
  · intro e h1 h2 h3
    simp [firstNonempty, h1, Elem.textE, h2, h3] at hs
    exact hs.symm
  · intro e e2 h1 h2 h3 h4 h5 h6
    simp [firstNonempty, h1, Elem.textE, h2, h3, h4, h5, h6] at hs
    exact hs.symm
  · intro e h1 h2
    simp [fotoOf, h1, Elem.attrE, h2] at hf
    exact hf.symm

def pgC2 : Page :=
  ⟨true,
   [(kH1, [.node false "" [] []]),
    (kTituloLabel, [.node false "Promo 30" [] []])],
   true⟩

def recC2 : PromoRec := { blankRec "u2" with titulo := some "" }

/-- C2, refuted as stated: the `titulo` loop stops at the first selector
that resolves, even when its text is empty, although a later alternative
would have yielded a non-empty value. -/
theorem C2_counterexample :
    ∃ rec, parse_single_promo "u2" pgC2 = .ok rec ∧ rec.titulo = some "" ∧
      ∃ e, pgC2.findEl? kTituloLabel = some e ∧ pyStrip e.textVal = "Promo 30" :=
  ⟨recC2, rfl, rfl, ⟨.node false "Promo 30" [] [], rfl, rfl⟩⟩

def h1W2 : Elem := .node false " Promo X " [] []

def sub1W2 : Elem := .node false "   " [] []

def sub2W2 : Elem := .node false "Gran sub" [] []

def pgW2 : Page :=
  ⟨true,
   [(kH1, [h1W2]), (kSub1, [sub1W2]), (kSub2, [sub2W2]),
    (kFoto, [.node false "" [("src", "https://img.example/i.png")] []])],
   true⟩

def recW2 : PromoRec :=
  { blankRec "w2" with
    titulo := some "Promo X", subtitulo := some "Gran sub",
    foto := some "https://img.example/i.png" }

theorem C2_witness :
    recW2.titulo = some (pyStrip " Promo X ") ∧
    recW2.subtitulo = some (pyStrip "Gran sub") := by
  have h := C2_selector_fallbacks (rfl : parse_single_promo "w2" pgW2 = .ok recW2)
  exact ⟨h.1 h1W2 rfl rfl, h.2.2.2.1 sub1W2 sub2W2 rfl rfl rfl rfl rfl (by decide)⟩

/-- C1 (amended): when `store_names` is non-null and the modal section
lists name and address nodes pairwise (equally many readable nodes of each
kind), `store_addresses` is non-null too, of the same length.  Without
that pairing hypothesis the two lists are collected independently (see the
counterexample). -/
theorem C1_store_lists_aligned {url : String} {pg : Page} {rec : PromoRec}
    {ns : List String} (h : parse_single_promo url pg = .ok rec)
    (hns : rec.store_names = some ns)
    (hpair : ∀ sec, pg.findEl? kSec = some sec →
      (textFold (sec.findEls kStoreName)).length =
      (textFold (sec.findEls kStoreAddr)).length) :
    ∃ addrs, rec.store_addresses = some addrs ∧ addrs.length = ns.length := by
  obtain ⟨-, t, f, sb, st2, -, -, -, hpb, hm⟩ := parse_ok_parts h
  have hsn := (procBlocks_pres hpb).2.2.2.2.1
  rcases modalPhase_store hm with ⟨h1, h2⟩ | ⟨sec, hsec, hstale, h1, h2⟩
  · rw [h1, hsn] at hns
    exact Option.noConfusion hns
  · rw [h1] at hns
    obtain ⟨hnl, hne⟩ := listToOpt_eq_some hns
    have hlen := hpair sec hsec
    have haddr_ne : textFold (sec.findEls kStoreAddr) ≠ [] := by
      intro hnil
      rw [hnil] at hlen
      simp at hlen
      exact hne hlen
    refine ⟨textFold (sec.findEls kStoreAddr), ?_, ?_⟩
    · rw [h2]
      unfold listToOpt
      rw [if_neg haddr_ne]
    · rw [hnl]
      exact hlen.symm

def blockC1 : Elem :=
  .node false "" []
    [(kLabel1, [.node false "Comercios" [] []]),
     (kVal1, [.node false "Ver listado completo" [] []]),
     (kXpVerListado, [.node false "Ver listado completo" [] []])]

def secC1 : Elem :=
  .node false "" []
    [(kStoreName, [.node false "Store A" [] []]),
     (kStoreAddr, [])]

def pgC1 : Page := ⟨true, [(kBlocks, [blockC1]), (kSec, [secC1])], true⟩

def recC1 : PromoRec :=
  { blankRec "u1" with
    comercios := some "Ver listado completo", store_names := some ["Store A"] }

/-- C1, refuted as stated: a modal with one readable store-name node and no
store-address node yields a non-null `store_names` next to a null
`store_addresses`. -/
theorem C1_counterexample :
    ∃ rec, parse_single_promo "u1" pgC1 = .ok rec ∧
      rec.store_names = some ["Store A"] ∧ rec.store_addresses = none :=
  ⟨recC1, rfl, rfl, rfl⟩

def secW1 : Elem :=
  .node false "" []
    [(kStoreName, [.node false "Store A" [] [], .node false "Store B" [] []]),
     (kStoreAddr, [.node false "Av. 1" [] [], .node false "Av. 2" [] []])]

def pgW1 : Page := ⟨true, [(kBlocks, [blockC1]), (kSec, [secW1])], true⟩

def recW1 : PromoRec :=
  { blankRec "w1" with
    comercios := some "Ver listado completo",
    store_names := some ["Store A", "Store B"],
    store_addresses := some ["Av. 1", "Av. 2"] }

theorem C1_witness :
    ∃ addrs, recW1.store_addresses = some addrs ∧
      addrs.length = (["Store A", "Store B"] : List String).length :=
  C1_store_lists_aligned
    (rfl : parse_single_promo "w1" pgW1 = .ok recW1) rfl
    (by intro sec hsec; injection hsec with h2; subst h2; rfl)

theorem buildGo_links {env : String → Page} {urls : List String}
    {recs : List PromoRec} (h : (buildGo env urls).1 = .ok recs) :
    recs.map PromoRec.link = urls := by
  induction urls generalizing recs with
  | nil =>
    rw [buildGo] at h
    injection h with h2
    subst h2
    rfl
  | cons u us ih =>
    rcases hpe : parse_single_promo u (env u) with e | r
    · rw [buildGo, hpe] at h
      injection h
    · rw [buildGo, hpe] at h
      rcases hrest : (buildGo env us).1 with e2 | rs
      · rw [hrest] at h
        injection h
      · rw [hrest] at h
        injection h with h2
        subst h2
        rw [List.map_cons, ih hrest, parse_link hpe]

/-- C8 (amended): a successful batch yields one row per input URL, in input
order, the `i`-th row's `link` being the `i`-th URL (equivalently, the rows'
`link` projection is the input list); the column set equals the PromoRecord
field list whenever the input is non-empty — `pd.DataFrame([])` has no
columns, so the empty input is the exception (see the counterexample). -/
theorem C8_batch_shape {urls : List String} {env : String → Page}
    {df : DataFrame} (h : build_promo_dataframe urls env = .ok df) :
    df.rows.map PromoRec.link = urls ∧ (urls ≠ [] → df.columns = promoColumns) := by
  unfold build_promo_dataframe at h
  rcases hg : (buildGo env urls).1 with e | recs
  · rw [hg] at h
    injection h
  · rw [hg] at h
    injection h with h2
    subst h2
    have hl := buildGo_links hg
    constructor
    · exact hl
    · intro hne
      have hrne : recs ≠ [] := by
        intro he
        subst he
        simp at hl
        exact hne hl
      show (if recs.isEmpty then [] else promoColumns) = promoColumns
      rw [if_neg (by simpa using hrne)]

/-- C8, refuted on the empty input: pandas derives the columns from the
records, so an empty batch has no columns at all. -/
theorem C8_counterexample :
    ∃ df, build_promo_dataframe [] (fun _ => (⟨true, [], true⟩ : Page)) = .ok df ∧
      df.columns ≠ promoColumns :=
  ⟨⟨[], []⟩, rfl, by decide⟩

theorem C8_witness :
    (DataFrame.mk promoColumns [blankRec "a", blankRec "b"]).rows.map PromoRec.link
      = ["a", "b"] ∧
    ((["a", "b"] : List String) ≠ [] →
      (DataFrame.mk promoColumns [blankRec "a", blankRec "b"]).columns = promoColumns) :=
  C8_batch_shape
    (rfl : build_promo_dataframe ["a", "b"] (fun _ => (⟨true, [], true⟩ : Page)) =
      .ok (DataFrame.mk promoColumns [blankRec "a", blankRec "b"]))

end ModoPromos
